import Mathlib

/-!
Verification of the koishi `gitlab-webhook` plugin (`src/index.ts`).

The plugin registers GitLab webhook receivers keyed by the string
`config.path + config.secret + config.port`, shares one HTTP server per port,
and wraps per-event-kind formatters in a router (`wrapHandler`) that looks up
destination chat groups by the project's `path_with_namespace` and sends the
formatted message to each group via `ctx.sender.sendGroupMsgAsync`.

Every formatter that embeds free text runs the JavaScript global replace
`text.replace(/\n\s*\n/g, '\n')` over it.  The text model below is a faithful
transcription of that regex replace on lists of characters.
-/

set_option autoImplicit false

namespace GitlabWebhook

/-- JavaScript's `\s` character class, restricted to the ASCII whitespace
characters (space, tab, newline, carriage return, vertical tab, form feed).
Payload text is modelled over these; the unicode members of `\s` are not
modelled. -/
def isWs (c : Char) : Bool :=
  c == ' ' || c == '\t' || c == '\n' || c == '\r' || c == '\x0b' || c == '\x0c'

/-- Greedy match of the regex fragment `\s*\n` at the start of `l` (the part of
`/\n\s*\n/` after its leading `\n`): if the maximal whitespace prefix of `l`
contains a newline, return the remainder of `l` after the LAST newline of that
prefix (where a greedy `\s*` followed by `\n` ends after backtracking);
otherwise `none` (no match). -/
def afterLastNL : List Char → Option (List Char)
  | [] => none
  | c :: cs =>
    if isWs c then
      match afterLastNL cs with
      | some r => some r
      | none => if c = '\n' then some cs else none
    else none

/-- Transcription of the JavaScript global replace
`s.replace(/\n\s*\n/g, '\n')` on a character list: scan left to right; at each
`'\n'`, greedily match `\s*\n` on the rest; on a match (`afterLastNL cs =
some r`), emit a single `'\n'` and resume scanning after the matched text
(`r`); on a failed match emit the `'\n'` and resume at the next character
(`cs`).  The two continuations are written as `(afterLastNL cs).getD cs`. -/
def collapseL (l : List Char) : List Char :=
  match l with
  | [] => []
  | c :: cs =>
    if c = '\n' then '\n' :: collapseL ((afterLastNL cs).getD cs)
    else c :: collapseL cs
termination_by l.length
decreasing_by
  · have H : ∀ (l : List Char) (r : List Char), afterLastNL l = some r →
        r.length < l.length := by
      intro l
      induction l with
      | nil => intro r hr; simp [afterLastNL] at hr
      | cons a as ih =>
        intro r hr
        by_cases hw : isWs a
        · simp only [afterLastNL, hw, if_true] at hr
          cases hrec : afterLastNL as with
          | some r' =>
            rw [hrec] at hr
            cases hr
            exact Nat.lt_trans (ih _ hrec) (Nat.lt_succ_self _)
          | none =>
            rw [hrec] at hr
            by_cases ha : a = '\n'
            · simp [ha] at hr
              cases hr
              exact Nat.lt_succ_self _
            · simp [ha] at hr
        · simp [afterLastNL, hw] at hr
    cases hr : afterLastNL cs with
    | some r =>
      simp only [hr, Option.getD_some]
      exact Nat.lt_trans (H cs r hr) (Nat.lt_succ_self _)
    | none =>
      simp only [hr, Option.getD_none]
      exact Nat.lt_succ_self _
  · exact Nat.lt_succ_self _

/-- `text.replace(/\n\s*\n/g, '\n')`, on `String`. -/
def collapse (s : String) : String :=
  ⟨collapseL s.data⟩

/-- Whether the regex `/\n\s*\n/` matches anywhere in `l` (a "blank-line run":
two newlines separated only by whitespace). -/
def hasBlankRunB : List Char → Bool
  | [] => false
  | c :: cs => (c = '\n' && (afterLastNL cs).isSome) || hasBlankRunB cs

/-- Declarative form of a blank-line run: two newlines with only whitespace
between them, anywhere in the list. -/
def HasBlankRun (l : List Char) : Prop :=
  ∃ a w b, l = a ++ '\n' :: (w ++ '\n' :: b) ∧ ∀ c ∈ w, isWs c = true

/-- Split a character list on newline characters (the line structure of a
message; `n` newlines yield `n + 1` lines). -/
def splitNL : List Char → List (List Char)
  | [] => [[]]
  | c :: cs =>
    if c = '\n' then [] :: splitNL cs
    else
      match splitNL cs with
      | l :: ls => (c :: l) :: ls
      | [] => [[c]]

/-- Join character lists with a newline separator (character-level view of
JavaScript's `array.join('\n')`). -/
def joinc : List (List Char) → List Char
  | [] => []
  | [p] => p
  | p :: ps => p ++ '\n' :: joinc ps

/-- JavaScript's `array.join('\n')` on `String`. -/
def nlJoin : List String → String
  | [] => ""
  | [s] => s
  | s :: rest => s ++ "\n" ++ nlJoin rest

/-! ## Event payloads (the fields of `node-gitlab-webhook/interfaces` the
plugin reads) -/

structure Project where
  path_with_namespace : String
deriving DecidableEq

structure Commit where
  message : String
deriving DecidableEq

structure PushEvent where
  user_name : String
  ref : String
  after : String
  project : Project
  commits : List Commit
deriving DecidableEq

structure TagPushEvent where
  project : Project
  ref : String
deriving DecidableEq

structure UserInfo where
  name : String
deriving DecidableEq

structure IssueAttributes where
  action : String
  iid : Nat
  title : String
  url : String
  description : String
deriving DecidableEq

structure IssueEvent where
  user : UserInfo
  project : Project
  object_attributes : IssueAttributes
deriving DecidableEq

structure NoteAttributes where
  noteable_type : String
  url : String
  note : String
deriving DecidableEq

structure MergeRequestRef where
  iid : Nat
deriving DecidableEq

structure IssueRef where
  iid : Nat
deriving DecidableEq

/-- Note events carry `merge_request` / `issue` sub-objects; the handler only
reads them in the matching `noteable_type` branch, so they are modelled as
total fields whose values are irrelevant in the other branches. -/
structure NoteEvent where
  user : UserInfo
  project : Project
  object_attributes : NoteAttributes
  merge_request : MergeRequestRef
  issue : IssueRef
deriving DecidableEq

structure MergeRequestAttributes where
  action : String
  iid : Nat
  url : String
  title : String
  target_branch : String
  source_branch : String
  target : Project
  source : Project
deriving DecidableEq

structure MergeRequestEvent where
  user : UserInfo
  project : Project
  object_attributes : MergeRequestAttributes
deriving DecidableEq

/-! ## Formatters (the five literal handlers passed to `wrapHandler`) -/

/-- `/^0+$/.test(s)`: `s` is a non-empty string consisting only of `'0'`. -/
def matchesZeroRun (s : String) : Bool :=
  !s.data.isEmpty && s.data.all (· == '0')

/-- `s.slice(n)` of JavaScript: drop the first `n` characters (empty when
`n ≥ s.length`). -/
def sliceFrom (s : String) (n : Nat) : String :=
  ⟨s.data.drop n⟩

/-- The array literal built by the `push` handler before `.join('\n')`. -/
def pushLines (p : PushEvent) : List String :=
  ["[GitLab] Push (" ++ p.project.path_with_namespace ++ ")",
   "Ref: " ++ p.ref,
   "User: " ++ p.user_name] ++
  p.commits.map (fun c => collapse c.message)

/-- The `push` handler: suppresses all-zero `after` (branch deletion marker),
otherwise joins the header lines and the collapsed commit messages. -/
def pushHandler (p : PushEvent) : Option String :=
  if matchesZeroRun p.after then none
  else some (nlJoin (pushLines p))

/-- The `tag_push` handler: single line, tag name is `ref.slice(10)`. -/
def tagPushHandler (p : TagPushEvent) : Option String :=
  some ("[GitLab] " ++ p.project.path_with_namespace ++ " published tag "
    ++ sliceFrom p.ref 10)

/-- The array literal built by the `issue` handler in its `'open'` case. -/
def issueLines (p : IssueEvent) : List String :=
  ["[GitLab] Issue Opened (" ++ p.project.path_with_namespace ++ "#"
     ++ toString p.object_attributes.iid ++ ")",
   "Title: " ++ p.object_attributes.title,
   "User: " ++ p.user.name,
   "URL: " ++ p.object_attributes.url,
   collapse p.object_attributes.description]

/-- The `issue` handler: only `action == 'open'` produces a message (the
`switch` has a single case and no default). -/
def issueHandler (p : IssueEvent) : Option String :=
  if p.object_attributes.action = "open" then some (nlJoin (issueLines p))
  else none

/-- The `note` handler: one message shape per `noteable_type` in
{Commit, MergeRequest, Issue}; any other type falls through the `switch`. -/
def noteHandler (p : NoteEvent) : Option String :=
  if p.object_attributes.noteable_type = "Commit" then
    some (nlJoin
      ["[GitLab] Commit Comment (" ++ p.project.path_with_namespace ++ ")",
       "User: " ++ p.user.name,
       "URL: " ++ p.object_attributes.url,
       collapse p.object_attributes.note])
  else if p.object_attributes.noteable_type = "MergeRequest" then
    some (nlJoin
      ["[GitLab] Merge Request Comment (" ++ p.project.path_with_namespace
         ++ "#" ++ toString p.merge_request.iid ++ ")",
       "User: " ++ p.user.name,
       "URL: " ++ p.object_attributes.url,
       collapse p.object_attributes.note])
  else if p.object_attributes.noteable_type = "Issue" then
    some (nlJoin
      ["[GitLab] Issue Comment (" ++ p.project.path_with_namespace ++ "#"
         ++ toString p.issue.iid ++ ")",
       "User: " ++ p.user.name,
       "URL: " ++ p.object_attributes.url,
       collapse p.object_attributes.note])
  else none

/-- The array literal built by the `merge_request` handler in its `'open'`
case. -/
def mergeRequestLines (p : MergeRequestEvent) : List String :=
  ["[GitLab] Pull Request Opened (" ++ p.project.path_with_namespace ++ "#"
     ++ toString p.object_attributes.iid ++ ")",
   p.object_attributes.target.path_with_namespace ++ "/"
     ++ p.object_attributes.target_branch ++ " <- "
     ++ p.object_attributes.source.path_with_namespace ++ "/"
     ++ p.object_attributes.source_branch,
   "User: " ++ p.user.name,
   "URL: " ++ p.object_attributes.url,
   collapse p.object_attributes.title]

/-- The `merge_request` handler: only `action == 'open'` produces a message. -/
def mergeRequestHandler (p : MergeRequestEvent) : Option String :=
  if p.object_attributes.action = "open" then
    some (nlJoin (mergeRequestLines p))
  else none

/-! ## The router (`wrapHandler`) -/

/-- The wrapper the webhook library passes to a registered handler; the router
reads `event.payload`. -/
structure EventData (α : Type) where
  payload : α

/-- First-match association-list lookup (JavaScript object property read on
the plugin's configuration records). -/
def lookupKV {κ β : Type} [DecidableEq κ] : List (κ × β) → κ → Option β
  | [], _ => none
  | (k, v) :: rest, key => if k = key then some v else lookupKV rest key

/-- The pure view of `wrapHandler`: the list of `(group id, message)` send
calls the wrapped handler performs for one event.  `options` is the
project-path → group-ids routing map; `proj` extracts the payload's `project`
field (the `T extends RepositoryPayload` bound). Absent routing entry, absent
message, and empty-string message (both falsy in the source's `!groups` /
`!message` guards) all yield zero sends. -/
def wrapHandler {α : Type} (options : List (String × List Nat))
    (proj : α → Project) (handler : α → Option String)
    (event : EventData α) : List (Nat × String) :=
  match lookupKV options (proj event.payload).path_with_namespace with
  | none => []
  | some groups =>
    match handler event.payload with
    | none => []
    | some message =>
      if message = "" then []
      else groups.map (fun id => (id, message))

/-- Modelled from the spec: `ctx.sender.sendGroupMsgAsync` (koishi-core, an
external collaborator, not part of this repository's sources) delivers the
message asynchronously and surfaces no error to the caller — fire-and-forget.
The call therefore always returns successfully, recording the attempted send
and its (unobserved) delivery outcome `outcome id message`. -/
def sendGroupMsgAsync (outcome : Nat → String → Bool) (id : Nat)
    (message : String) : Except String (Nat × String × Bool) :=
  Except.ok (id, message, outcome id message)

/-- The `for (const id of groups) await ctx.sender.sendGroupMsgAsync(...)`
loop: sequential monadic binds, so a raised error would abort the remaining
iterations and propagate. -/
def deliverLoop (outcome : Nat → String → Bool) (groups : List Nat)
    (message : String) : Except String (List (Nat × String × Bool)) :=
  match groups with
  | [] => Except.ok []
  | id :: rest => do
    let r ← sendGroupMsgAsync outcome id message
    let rs ← deliverLoop outcome rest message
    pure (r :: rs)

/-- `wrapHandler` together with the delivery loop: the full effect of one
routed event, as the list of attempted sends or a surfaced error. -/
def wrapHandlerRun {α : Type} (outcome : Nat → String → Bool)
    (options : List (String × List Nat)) (proj : α → Project)
    (handler : α → Option String) (event : EventData α) :
    Except String (List (Nat × String × Bool)) :=
  match lookupKV options (proj event.payload).path_with_namespace with
  | none => Except.ok []
  | some groups =>
    match handler event.payload with
    | none => Except.ok []
    | some message =>
      if message = "" then Except.ok []
      else deliverLoop outcome groups message

/-! ## Registration (`apply`'s shared `webhooks` / `servers` registries) -/

/-- The resolved plugin configuration (`defaultOptions` overridden by the
host application's `gitlabWebhook` options). -/
structure WebhookConfig where
  port : Nat
  secret : String
  path : String
deriving DecidableEq

def defaultOptions : WebhookConfig :=
  { port := 12140, secret := "", path := "/" }

/-- The registry key `config.path + config.secret + config.port` (JavaScript
string concatenation coerces the port number to its decimal digits). -/
def registryKey (c : WebhookConfig) : String :=
  c.path ++ c.secret ++ toString c.port

/-- The module-level mutable registries: `webhooks` maps key strings to
receiver instances, `servers` maps ports to HTTP servers.  Instances are
identified by the order of their creation (`nextId`); a server is recorded
with the receiver id of the `webhooks[key]` handler it was created from. -/
structure Registry where
  webhooks : List (String × Nat)
  servers : List (Nat × Nat)
  nextId : Nat
deriving DecidableEq

def emptyRegistry : Registry :=
  { webhooks := [], servers := [], nextId := 0 }

/-- One call of `apply` with resolved configuration `c`: create the receiver
if `!webhooks[key]`, then create (and schedule listen/close for) the HTTP
server if `!servers[config.port]`, passing it `webhooks[key]`. -/
def applyStep (c : WebhookConfig) (s : Registry) : Registry :=
  let key := registryKey c
  let (webhooks, nextId) :=
    match lookupKV s.webhooks key with
    | some _ => (s.webhooks, s.nextId)
    | none => (s.webhooks ++ [(key, s.nextId)], s.nextId + 1)
  let wid := (lookupKV webhooks key).getD 0
  let servers :=
    match lookupKV s.servers c.port with
    | some _ => s.servers
    | none => s.servers ++ [(c.port, wid)]
  { webhooks := webhooks, servers := servers, nextId := nextId }

/-- A sequence of `apply` calls against an arbitrary starting registry
state. -/
def applyFold (s : Registry) (cs : List WebhookConfig) : Registry :=
  cs.foldl (fun s c => applyStep c s) s

/-- A sequence of `apply` calls against the initially empty registries. -/
def applyRun (cs : List WebhookConfig) : Registry :=
  applyFold emptyRegistry cs

/-! ## Lemmas: the blank-line-collapse transcription -/

theorem collapseL_nil : collapseL [] = [] := by
  rw [collapseL]

theorem collapseL_cons_nl (cs : List Char) :
    collapseL ('\n' :: cs) = '\n' :: collapseL ((afterLastNL cs).getD cs) := by
  rw [collapseL]
  simp

theorem collapseL_cons_ne {c : Char} (cs : List Char) (hc : c ≠ '\n') :
    collapseL (c :: cs) = c :: collapseL cs := by
  rw [collapseL]
  simp [hc]

theorem afterLastNL_cons_nl (cs : List Char) : afterLastNL ('\n' :: cs) ≠ none := by
  have hw : isWs '\n' = true := by decide
  cases hrec : afterLastNL cs <;> simp [afterLastNL, hw, hrec]

theorem afterLastNL_some_none {l r : List Char} (h : afterLastNL l = some r) :
    afterLastNL r = none := by
  induction l with
  | nil => simp [afterLastNL] at h
  | cons c cs ih =>
    by_cases hw : isWs c
    · simp only [afterLastNL, hw, if_true] at h
      cases hrec : afterLastNL cs with
      | some r' =>
        rw [hrec] at h
        cases h
        exact ih hrec
      | none =>
        rw [hrec] at h
        by_cases hc : c = '\n'
        · rw [if_pos hc] at h
          cases h
          exact hrec
        · rw [if_neg hc] at h
          simp at h
    · simp [afterLastNL, hw] at h

theorem afterLastNL_none_cons {c : Char} {cs : List Char}
    (h : afterLastNL (c :: cs) = none) :
    c ≠ '\n' ∧ (isWs c = true → afterLastNL cs = none) := by
  constructor
  · intro hc
    subst hc
    exact afterLastNL_cons_nl cs h
  · intro hw
    simp only [afterLastNL, hw, if_true] at h
    cases hrec : afterLastNL cs with
    | some r => rw [hrec] at h; simp at h
    | none => rfl

theorem afterLastNL_none_collapseL {l : List Char} (h : afterLastNL l = none) :
    afterLastNL (collapseL l) = none := by
  induction l with
  | nil => rw [collapseL_nil]; exact h
  | cons c cs ih =>
    obtain ⟨hc, hw⟩ := afterLastNL_none_cons h
    rw [collapseL_cons_ne cs hc]
    by_cases hisw : isWs c
    · have ih' := ih (hw hisw)
      simp [afterLastNL, hisw, ih', hc]
    · simp [afterLastNL, hisw]

theorem hasBlankRunB_collapseL (l : List Char) : hasBlankRunB (collapseL l) = false := by
  induction l using collapseL.induct with
  | case1 => rw [collapseL_nil]; rfl
  | case2 cs ih =>
    rw [collapseL_cons_nl]
    have hnone : afterLastNL ((afterLastNL cs).getD cs) = none := by
      cases hrec : afterLastNL cs with
      | some r => simpa [hrec] using afterLastNL_some_none hrec
      | none => simp [hrec]
    have hcoll := afterLastNL_none_collapseL hnone
    simp [hasBlankRunB, hcoll, ih]
  | case3 c cs hc ih =>
    rw [collapseL_cons_ne cs hc]
    simp [hasBlankRunB, hc, ih]

theorem collapseL_of_no_run {l : List Char} (h : hasBlankRunB l = false) :
    collapseL l = l := by
  induction l with
  | nil => exact collapseL_nil
  | cons c cs ih =>
    simp only [hasBlankRunB, Bool.or_eq_false_iff, Bool.and_eq_false_iff] at h
    by_cases hc : c = '\n'
    · subst hc
      have hnone : afterLastNL cs = none := by
        rcases h.1 with h1 | h1
        · simp at h1
        · exact Option.not_isSome_iff_eq_none.mp (by simp [h1])
      rw [collapseL_cons_nl, hnone, Option.getD_none, ih h.2]
    · rw [collapseL_cons_ne cs hc, ih h.2]

theorem nl_mem_collapseL (l : List Char) : '\n' ∈ collapseL l ↔ '\n' ∈ l := by
  induction l using collapseL.induct with
  | case1 => rw [collapseL_nil]
  | case2 cs ih => rw [collapseL_cons_nl]; simp
  | case3 c cs hc ih => rw [collapseL_cons_ne cs hc]; simp [List.mem_cons, ih]

theorem afterLastNL_decomp {l r : List Char} (h : afterLastNL l = some r) :
    ∃ w, l = w ++ '\n' :: r ∧ ∀ c ∈ w, isWs c = true := by
  induction l with
  | nil => simp [afterLastNL] at h
  | cons c cs ih =>
    by_cases hw : isWs c
    · simp only [afterLastNL, hw, if_true] at h
      cases hrec : afterLastNL cs with
      | some r' =>
        rw [hrec] at h
        cases h
        obtain ⟨w, hw1, hw2⟩ := ih hrec
        refine ⟨c :: w, by simp [hw1], ?_⟩
        intro x hx
        rcases List.mem_cons.mp hx with rfl | hx
        · exact hw
        · exact hw2 _ hx
      | none =>
        rw [hrec] at h
        by_cases hc : c = '\n'
        · rw [if_pos hc] at h
          cases h
          subst hc
          exact ⟨[], by simp, by simp⟩
        · rw [if_neg hc] at h
          simp at h
    · simp [afterLastNL, hw] at h

theorem isSome_afterLastNL_of_run {w : List Char} (b : List Char)
    (hww : ∀ c ∈ w, isWs c = true) :
    (afterLastNL (w ++ '\n' :: b)).isSome = true := by
  induction w with
  | nil =>
    have hw : isWs '\n' = true := by decide
    cases hrec : afterLastNL b <;> simp [afterLastNL, hw, hrec]
  | cons c w' ih =>
    have hw : isWs c = true := hww c (by simp)
    have ih' := ih (fun x hx => hww x (by simp [hx]))
    simp only [List.cons_append, afterLastNL, hw, if_true]
    cases hrec : afterLastNL (w' ++ '\n' :: b) with
    | some r => simp
    | none => rw [hrec] at ih'; simp at ih'

theorem hasBlankRunB_iff (l : List Char) : hasBlankRunB l = true ↔ HasBlankRun l := by
  constructor
  · intro h
    induction l with
    | nil => simp [hasBlankRunB] at h
    | cons c cs ih =>
      simp only [hasBlankRunB, Bool.or_eq_true, Bool.and_eq_true,
        decide_eq_true_eq] at h
      rcases h with ⟨hc, hsome⟩ | h
      · obtain ⟨r, hr⟩ := Option.isSome_iff_exists.mp hsome
        obtain ⟨w, hw1, hw2⟩ := afterLastNL_decomp hr
        exact ⟨[], w, r, by simp [hc, hw1], hw2⟩
      · obtain ⟨a, w, b, h1, h2⟩ := ih h
        exact ⟨c :: a, w, b, by simp [h1], h2⟩
  · rintro ⟨a, w, b, rfl, hww⟩
    induction a with
    | nil =>
      simp only [List.nil_append, hasBlankRunB, Bool.or_eq_true, Bool.and_eq_true,
        decide_eq_true_eq]
      exact Or.inl ⟨trivial, isSome_afterLastNL_of_run b hww⟩
    | cons c a' ih =>
      simp only [List.cons_append, hasBlankRunB, Bool.or_eq_true]
      exact Or.inr ih

/-! ## Lemmas: line structure (`splitNL` / `joinc` / `nlJoin`) -/

theorem splitNL_no_nl {a : List Char} (h : '\n' ∉ a) : splitNL a = [a] := by
  induction a with
  | nil => rfl
  | cons c cs ih =>
    have hc : c ≠ '\n' := fun hh => h (by simp [hh])
    have hcs : '\n' ∉ cs := fun hh => h (by simp [hh])
    simp [splitNL, hc, ih hcs]

theorem splitNL_append_nl {a : List Char} (b : List Char) (h : '\n' ∉ a) :
    splitNL (a ++ '\n' :: b) = a :: splitNL b := by
  induction a with
  | nil => simp [splitNL]
  | cons c cs ih =>
    have hc : c ≠ '\n' := fun hh => h (by simp [hh])
    have hcs : '\n' ∉ cs := fun hh => h (by simp [hh])
    simp [splitNL, hc, ih hcs]

theorem joinc_cons_cons (p q : List Char) (qs : List (List Char)) :
    joinc (p :: q :: qs) = p ++ '\n' :: joinc (q :: qs) := rfl

theorem nlJoin_cons_cons (s t : String) (ts : List String) :
    nlJoin (s :: t :: ts) = s ++ "\n" ++ nlJoin (t :: ts) := rfl

theorem splitNL_joinc {parts : List (List Char)} (hne : parts ≠ [])
    (h : ∀ p ∈ parts, '\n' ∉ p) : splitNL (joinc parts) = parts := by
  induction parts with
  | nil => exact absurd rfl hne
  | cons p ps ih =>
    cases ps with
    | nil => simpa [joinc] using splitNL_no_nl (h p (by simp))
    | cons q qs =>
      rw [joinc_cons_cons, splitNL_append_nl _ (h p (by simp)),
        ih (List.cons_ne_nil q qs) (fun x hx => h x (by simp [hx]))]

theorem nlJoin_data (l : List String) : (nlJoin l).data = joinc (l.map String.data) := by
  induction l with
  | nil => rfl
  | cons s rest ih =>
    cases rest with
    | nil => rfl
    | cons t ts =>
      have hnl : ("\n" : String).data = ['\n'] := rfl
      rw [nlJoin_cons_cons]
      simp only [List.map_cons, joinc_cons_cons, String.data_append, hnl, ih]
      simp

/-! ## Lemmas: router and delivery -/

theorem deliverLoop_eq (outcome : Nat → String → Bool) (groups : List Nat)
    (message : String) :
    deliverLoop outcome groups message =
      Except.ok (groups.map fun id => (id, message, outcome id message)) := by
  induction groups with
  | nil => rfl
  | cons id rest ih =>
    simp [deliverLoop, sendGroupMsgAsync, ih, Bind.bind, Except.bind, pure,
      Except.pure]

theorem wrapHandler_calls {α : Type} (options : List (String × List Nat))
    (proj : α → Project) (handler : α → Option String) (event : EventData α)
    {groups : List Nat} {message : String}
    (hg : lookupKV options (proj event.payload).path_with_namespace = some groups)
    (hm : handler event.payload = some message) (hne : message ≠ "") :
    wrapHandler options proj handler event = groups.map fun id => (id, message) := by
  simp [wrapHandler, hg, hm, hne]

theorem wrapHandlerRun_route {α : Type} (outcome : Nat → String → Bool)
    (options : List (String × List Nat)) (proj : α → Project)
    (handler : α → Option String) (event : EventData α)
    {groups : List Nat} {message : String}
    (hg : lookupKV options (proj event.payload).path_with_namespace = some groups)
    (hm : handler event.payload = some message) (hne : message ≠ "") :
    wrapHandlerRun outcome options proj handler event =
      Except.ok (groups.map fun id => (id, message, outcome id message)) := by
  simp [wrapHandlerRun, hg, hm, hne, deliverLoop_eq]

/-! ## Lemmas: the registration registries -/

theorem lookupKV_append_some {κ β : Type} [DecidableEq κ] {l : List (κ × β)}
    {k : κ} {v : β} (l₂ : List (κ × β)) (h : lookupKV l k = some v) :
    lookupKV (l ++ l₂) k = some v := by
  induction l with
  | nil => simp [lookupKV] at h
  | cons e rest ih =>
    obtain ⟨k', v'⟩ := e
    by_cases hk : k' = k
    · simpa [lookupKV, hk] using h
    · simp only [List.cons_append, lookupKV, if_neg hk] at h ⊢
      exact ih h

theorem lookupKV_append_none {κ β : Type} [DecidableEq κ] {l : List (κ × β)}
    {k : κ} (l₂ : List (κ × β)) (h : lookupKV l k = none) :
    lookupKV (l ++ l₂) k = lookupKV l₂ k := by
  induction l with
  | nil => rfl
  | cons e rest ih =>
    obtain ⟨k', v'⟩ := e
    by_cases hk : k' = k
    · simp [lookupKV, hk] at h
    · simp only [lookupKV, if_neg hk] at h
      simp only [List.cons_append, lookupKV, if_neg hk]
      exact ih h

theorem lookupKV_some_mem {κ β : Type} [DecidableEq κ] {l : List (κ × β)}
    {k : κ} {v : β} (h : lookupKV l k = some v) : (k, v) ∈ l := by
  induction l with
  | nil => simp [lookupKV] at h
  | cons e rest ih =>
    obtain ⟨k', v'⟩ := e
    by_cases hk : k' = k
    · simp only [lookupKV, if_pos hk] at h
      cases h
      subst hk
      exact List.mem_cons_self _ _
    · simp only [lookupKV, if_neg hk] at h
      exact List.mem_cons_of_mem _ (ih h)

theorem lookupKV_none_not_mem {κ β : Type} [DecidableEq κ] {l : List (κ × β)}
    {k : κ} (h : lookupKV l k = none) : k ∉ l.map Prod.fst := by
  induction l with
  | nil => simp
  | cons e rest ih =>
    obtain ⟨k', v'⟩ := e
    by_cases hk : k' = k
    · simp [lookupKV, hk] at h
    · simp only [lookupKV, if_neg hk] at h
      simp only [List.map_cons, List.mem_cons]
      rintro (rfl | hmem)
      · exact hk rfl
      · exact ih h hmem

theorem lookupKV_singleton_self {κ β : Type} [DecidableEq κ] (k : κ) (v : β) :
    lookupKV [(k, v)] k = some v := by
  simp [lookupKV]

theorem applyStep_webhook_some (c : WebhookConfig) (s : Registry) :
    ∃ v, lookupKV (applyStep c s).webhooks (registryKey c) = some v := by
  cases hw : lookupKV s.webhooks (registryKey c) with
  | some w =>
    cases hs : lookupKV s.servers c.port <;>
      exact ⟨w, by simp only [applyStep, hw, hs]⟩
  | none =>
    have happ : lookupKV (s.webhooks ++ [(registryKey c, s.nextId)]) (registryKey c) =
        some s.nextId := by
      rw [lookupKV_append_none _ hw, lookupKV_singleton_self]
    cases hs : lookupKV s.servers c.port <;>
      exact ⟨s.nextId, by simp only [applyStep, hw, hs]; exact happ⟩

theorem applyStep_server_some (c : WebhookConfig) (s : Registry) :
    ∃ v, lookupKV (applyStep c s).servers c.port = some v := by
  cases hw : lookupKV s.webhooks (registryKey c) with
  | some w =>
    cases hs : lookupKV s.servers c.port with
    | some sv => exact ⟨sv, by simp only [applyStep, hw, hs]⟩
    | none =>
      refine ⟨w, ?_⟩
      simp only [applyStep, hw, hs]
      rw [lookupKV_append_none _ hs]
      simp [lookupKV, hw]
  | none =>
    cases hs : lookupKV s.servers c.port with
    | some sv => exact ⟨sv, by simp only [applyStep, hw, hs]⟩
    | none =>
      refine ⟨s.nextId, ?_⟩
      simp only [applyStep, hw, hs]
      rw [lookupKV_append_none _ hs]
      have : lookupKV (s.webhooks ++ [(registryKey c, s.nextId)]) (registryKey c) =
          some s.nextId := by
        rw [lookupKV_append_none _ hw, lookupKV_singleton_self]
      simp [this, lookupKV]

theorem applyStep_of_present {c : WebhookConfig} {s : Registry}
    (hw : ∃ v, lookupKV s.webhooks (registryKey c) = some v)
    (hs : ∃ v, lookupKV s.servers c.port = some v) : applyStep c s = s := by
  obtain ⟨w, hw⟩ := hw
  obtain ⟨sv, hs⟩ := hs
  simp only [applyStep, hw, hs]

theorem applyStep_idem (c : WebhookConfig) (s : Registry) :
    applyStep c (applyStep c s) = applyStep c s :=
  applyStep_of_present (applyStep_webhook_some c s) (applyStep_server_some c s)

theorem lookupKV_applyStep_webhooks {c : WebhookConfig} {s : Registry} {k : String}
    {v : Nat} (h : lookupKV s.webhooks k = some v) :
    lookupKV (applyStep c s).webhooks k = some v := by
  cases hw : lookupKV s.webhooks (registryKey c) <;>
    cases hs : lookupKV s.servers c.port <;>
    simp only [applyStep, hw, hs] <;>
    first
      | exact h
      | exact lookupKV_append_some _ h

theorem lookupKV_applyStep_servers {c : WebhookConfig} {s : Registry} {p : Nat}
    {v : Nat} (h : lookupKV s.servers p = some v) :
    lookupKV (applyStep c s).servers p = some v := by
  cases hw : lookupKV s.webhooks (registryKey c) <;>
    cases hs : lookupKV s.servers c.port <;>
    simp only [applyStep, hw, hs] <;>
    first
      | exact h
      | exact lookupKV_append_some _ h

theorem applyFold_nil (s : Registry) : applyFold s [] = s := rfl

theorem applyFold_cons (s : Registry) (c : WebhookConfig) (cs : List WebhookConfig) :
    applyFold s (c :: cs) = applyFold (applyStep c s) cs := rfl

theorem lookupKV_applyFold_webhooks {k : String} {v : Nat}
    (cs : List WebhookConfig) {s : Registry} (h : lookupKV s.webhooks k = some v) :
    lookupKV (applyFold s cs).webhooks k = some v := by
  induction cs generalizing s with
  | nil => exact h
  | cons c rest ih => exact ih (lookupKV_applyStep_webhooks h)

theorem lookupKV_applyFold_servers {p v : Nat}
    (cs : List WebhookConfig) {s : Registry} (h : lookupKV s.servers p = some v) :
    lookupKV (applyFold s cs).servers p = some v := by
  induction cs generalizing s with
  | nil => exact h
  | cons c rest ih => exact ih (lookupKV_applyStep_servers h)

theorem applyStep_inv (c : WebhookConfig) (s : Registry)
    (h1 : (s.servers.map Prod.fst).Nodup)
    (h2 : (s.webhooks.map Prod.snd).Nodup)
    (h3 : ∀ e ∈ s.webhooks, e.2 < s.nextId) :
    ((applyStep c s).servers.map Prod.fst).Nodup ∧
    ((applyStep c s).webhooks.map Prod.snd).Nodup ∧
    ∀ e ∈ (applyStep c s).webhooks, e.2 < (applyStep c s).nextId := by
  cases hw : lookupKV s.webhooks (registryKey c) <;>
    cases hs : lookupKV s.servers c.port <;>
    simp only [applyStep, hw, hs]
  · -- new webhook, new server
    refine ⟨?_, ?_, ?_⟩
    · simp only [List.map_append, List.map_cons, List.map_nil]
      rw [List.nodup_append]
      exact ⟨h1, List.nodup_singleton _,
        by simpa using fun hmem => lookupKV_none_not_mem hs hmem⟩
    · simp only [List.map_append, List.map_cons, List.map_nil]
      rw [List.nodup_append]
      refine ⟨h2, List.nodup_singleton _, ?_⟩
      intro v hv
      simp only [List.mem_singleton]
      intro hveq
      subst hveq
      obtain ⟨⟨k', v'⟩, hmem, hsnd⟩ := List.mem_map.mp hv
      exact absurd (hsnd ▸ h3 _ hmem) (lt_irrefl _)
    · intro e he
      rcases List.mem_append.mp he with he | he
      · exact Nat.lt_trans (h3 _ he) (Nat.lt_succ_self _)
      · simp only [List.mem_singleton] at he
        subst he
        exact Nat.lt_succ_self _
  · -- new webhook, existing server
    refine ⟨h1, ?_, ?_⟩
    · simp only [List.map_append, List.map_cons, List.map_nil]
      rw [List.nodup_append]
      refine ⟨h2, List.nodup_singleton _, ?_⟩
      intro v hv
      simp only [List.mem_singleton]
      intro hveq
      subst hveq
      obtain ⟨⟨k', v'⟩, hmem, hsnd⟩ := List.mem_map.mp hv
      exact absurd (hsnd ▸ h3 _ hmem) (lt_irrefl _)
    · intro e he
      rcases List.mem_append.mp he with he | he
      · exact Nat.lt_trans (h3 _ he) (Nat.lt_succ_self _)
      · simp only [List.mem_singleton] at he
        subst he
        exact Nat.lt_succ_self _
  · -- existing webhook, new server
    refine ⟨?_, h2, h3⟩
    simp only [List.map_append, List.map_cons, List.map_nil]
    rw [List.nodup_append]
    exact ⟨h1, List.nodup_singleton _,
      by simpa using fun hmem => lookupKV_none_not_mem hs hmem⟩
  · -- both present
    exact ⟨h1, h2, h3⟩

theorem applyFold_inv (cs : List WebhookConfig) (s : Registry)
    (h1 : (s.servers.map Prod.fst).Nodup)
    (h2 : (s.webhooks.map Prod.snd).Nodup)
    (h3 : ∀ e ∈ s.webhooks, e.2 < s.nextId) :
    ((applyFold s cs).servers.map Prod.fst).Nodup ∧
    ((applyFold s cs).webhooks.map Prod.snd).Nodup ∧
    ∀ e ∈ (applyFold s cs).webhooks, e.2 < (applyFold s cs).nextId := by
  induction cs generalizing s with
  | nil => exact ⟨h1, h2, h3⟩
  | cons c rest ih =>
    rw [applyFold_cons]
    obtain ⟨g1, g2, g3⟩ := applyStep_inv c s h1 h2 h3
    exact ih _ g1 g2 g3

theorem lookupKV_distinct_values {l : List (String × Nat)}
    (hnd : (l.map Prod.snd).Nodup) {k₁ k₂ : String} {v₁ v₂ : Nat}
    (hk : k₁ ≠ k₂) (h₁ : lookupKV l k₁ = some v₁) (h₂ : lookupKV l k₂ = some v₂) :
    v₁ ≠ v₂ := by
  intro hv
  subst hv
  have m₁ := lookupKV_some_mem h₁
  have m₂ := lookupKV_some_mem h₂
  have heq := List.inj_on_of_nodup_map hnd m₁ m₂ rfl
  exact hk (congrArg Prod.fst heq)

/-- Collapsing is the identity on text without a blank-line run. -/
theorem collapse_eq_self_of_no_run {s : String} (h : hasBlankRunB s.data = false) :
    collapse s = s := by
  show (⟨collapseL s.data⟩ : String) = s
  rw [collapseL_of_no_run h]

/-! ## Claims -/

/-- C1: an incoming event whose project `path_with_namespace` is absent from
the configured routing mapping produces zero send calls and raises no error:
the router performs no delivery and returns successfully with an empty
attempt list (silent drop). -/
theorem C1_unmapped_project_silent_drop {α : Type} (outcome : Nat → String → Bool)
    (options : List (String × List Nat)) (proj : α → Project)
    (handler : α → Option String) (event : EventData α)
    (h : lookupKV options (proj event.payload).path_with_namespace = none) :
    wrapHandler options proj handler event = [] ∧
    wrapHandlerRun outcome options proj handler event = Except.ok [] :=
  ⟨by simp [wrapHandler, h], by simp [wrapHandlerRun, h]⟩

/-- C1 witness: a tag-push event for project `g/p` while only `other` is
configured is dropped silently. -/
theorem C1_witness :
    wrapHandler [("other", [1])] TagPushEvent.project tagPushHandler
        ⟨⟨⟨"g/p"⟩, "refs/tags/v1"⟩⟩ = [] ∧
    wrapHandlerRun (fun _ _ => true) [("other", [1])] TagPushEvent.project
        tagPushHandler ⟨⟨⟨"g/p"⟩, "refs/tags/v1"⟩⟩ = Except.ok [] :=
  C1_unmapped_project_silent_drop (fun _ _ => true) [("other", [1])]
    TagPushEvent.project tagPushHandler ⟨⟨⟨"g/p"⟩, "refs/tags/v1"⟩⟩ (by decide)

/-- C2: a routed event whose formatter yields a (non-empty) message requests
delivery exactly once per configured destination group, in order: the send
calls are precisely `groups.map (fun id => (id, message))`. -/
theorem C2_one_send_per_group {α : Type} (outcome : Nat → String → Bool)
    (options : List (String × List Nat)) (proj : α → Project)
    (handler : α → Option String) (event : EventData α)
    (groups : List Nat) (message : String)
    (hg : lookupKV options (proj event.payload).path_with_namespace = some groups)
    (hm : handler event.payload = some message) (hne : message ≠ "") :
    wrapHandler options proj handler event = groups.map (fun id => (id, message)) ∧
    wrapHandlerRun outcome options proj handler event =
      Except.ok (groups.map fun id => (id, message, outcome id message)) :=
  ⟨wrapHandler_calls options proj handler event hg hm hne,
   wrapHandlerRun_route outcome options proj handler event hg hm hne⟩

/-- C2 witness: a tag push routed to groups 10 and 20 produces exactly one
send call per group. -/
theorem C2_witness :
    wrapHandler [("g/p", [10, 20])] TagPushEvent.project tagPushHandler
        ⟨⟨⟨"g/p"⟩, "refs/tags/v1"⟩⟩ =
      [10, 20].map (fun id => (id, "[GitLab] g/p published tag v1")) ∧
    wrapHandlerRun (fun _ _ => true) [("g/p", [10, 20])] TagPushEvent.project
        tagPushHandler ⟨⟨⟨"g/p"⟩, "refs/tags/v1"⟩⟩ =
      Except.ok ([10, 20].map fun id =>
        (id, "[GitLab] g/p published tag v1", true)) :=
  C2_one_send_per_group (fun _ _ => true) [("g/p", [10, 20])]
    TagPushEvent.project tagPushHandler ⟨⟨⟨"g/p"⟩, "refs/tags/v1"⟩⟩
    [10, 20] "[GitLab] g/p published tag v1" (by decide) (by decide) (by decide)

/-- C3: delivery requests are independent fire-and-forget calls: for every
assignment of delivery outcomes (including ones where some groups' deliveries
fail), the router surfaces no error and still attempts one send per
configured destination group — no failure blocks the remaining groups. -/
theorem C3_deliveries_independent {α : Type}
    (options : List (String × List Nat)) (proj : α → Project)
    (handler : α → Option String) (event : EventData α)
    (groups : List Nat) (message : String)
    (hg : lookupKV options (proj event.payload).path_with_namespace = some groups)
    (hm : handler event.payload = some message) (hne : message ≠ "") :
    ∀ failing : Nat → String → Bool,
      ∃ attempts, wrapHandlerRun failing options proj handler event =
          Except.ok attempts ∧
        attempts.map (fun r => r.1) = groups := by
  intro failing
  refine ⟨groups.map fun id => (id, message, failing id message),
    wrapHandlerRun_route failing options proj handler event hg hm hne, ?_⟩
  rw [List.map_map]
  show List.map (fun id => id) groups = groups
  exact List.map_id' groups

/-- C3 witness: with the delivery to group 10 failing and the one to group 20
succeeding, both sends are still attempted and no error is surfaced. -/
theorem C3_witness :
    ∃ attempts,
      wrapHandlerRun (fun id _ => decide (id = 20)) [("g/p", [10, 20])]
          TagPushEvent.project tagPushHandler ⟨⟨⟨"g/p"⟩, "refs/tags/v1"⟩⟩ =
        Except.ok attempts ∧
      attempts.map (fun r => r.1) = [10, 20] :=
  C3_deliveries_independent [("g/p", [10, 20])] TagPushEvent.project
    tagPushHandler ⟨⟨⟨"g/p"⟩, "refs/tags/v1"⟩⟩ [10, 20]
    "[GitLab] g/p published tag v1" (by decide) (by decide) (by decide)
    (fun id _ => decide (id = 20))

/-- C4: a Push event whose `after` field matches `^0+$` (non-empty, all `'0'`)
is suppressed by the push formatter, and the router consequently performs
zero delivery calls for it. -/
theorem C4_zero_after_suppressed (outcome : Nat → String → Bool)
    (options : List (String × List Nat)) (p : PushEvent)
    (h : p.after.data ≠ [] ∧ ∀ c ∈ p.after.data, c = '0') :
    pushHandler p = none ∧
    wrapHandler options PushEvent.project pushHandler ⟨p⟩ = [] ∧
    wrapHandlerRun outcome options PushEvent.project pushHandler ⟨p⟩ =
      Except.ok [] := by
  have h1 : p.after.data.isEmpty = false := by
    cases hd : p.after.data with
    | nil => exact absurd hd h.1
    | cons a as => rfl
  have h2 : p.after.data.all (· == '0') = true := by
    rw [List.all_eq_true]
    intro c hc
    simpa using h.2 c hc
  have hz : matchesZeroRun p.after = true := by
    simp [matchesZeroRun, h1, h2]
  have hp : pushHandler p = none := by simp [pushHandler, hz]
  refine ⟨hp, ?_, ?_⟩
  · cases hlk : lookupKV options (PushEvent.project p).path_with_namespace with
    | none => simp [wrapHandler, hlk]
    | some groups => simp [wrapHandler, hlk, hp]
  · cases hlk : lookupKV options (PushEvent.project p).path_with_namespace with
    | none => simp [wrapHandlerRun, hlk]
    | some groups => simp [wrapHandlerRun, hlk, hp]

/-- C4 witness: a push with `after = "0000"` to a routed project is fully
suppressed. -/
theorem C4_witness :
    pushHandler { user_name := "u", ref := "refs/heads/b", after := "0000",
                  project := ⟨"g/p"⟩, commits := [⟨"m"⟩] } = none ∧
    wrapHandler [("g/p", [7])] PushEvent.project pushHandler
      ⟨{ user_name := "u", ref := "refs/heads/b", after := "0000",
         project := ⟨"g/p"⟩, commits := [⟨"m"⟩] }⟩ = [] ∧
    wrapHandlerRun (fun _ _ => true) [("g/p", [7])] PushEvent.project pushHandler
      ⟨{ user_name := "u", ref := "refs/heads/b", after := "0000",
         project := ⟨"g/p"⟩, commits := [⟨"m"⟩] }⟩ = Except.ok [] :=
  C4_zero_after_suppressed (fun _ _ => true) [("g/p", [7])]
    { user_name := "u", ref := "refs/heads/b", after := "0000",
      project := ⟨"g/p"⟩, commits := [⟨"m"⟩] }
    ⟨by decide, by decide⟩

/-- C6: the TagPush formatter always yields a message (never suppressed), the
message is non-empty, and the displayed tag is the ref with exactly its first
10 characters removed; ref `refs/tags/v1.0.0` displays as `v1.0.0`. -/
theorem C6_tag_push_never_suppressed (p : TagPushEvent) :
    tagPushHandler p =
      some ("[GitLab] " ++ p.project.path_with_namespace ++ " published tag "
        ++ sliceFrom p.ref 10) ∧
    (sliceFrom p.ref 10).data = p.ref.data.drop 10 ∧
    ("[GitLab] " ++ p.project.path_with_namespace ++ " published tag "
        ++ sliceFrom p.ref 10) ≠ "" ∧
    tagPushHandler ⟨⟨"koishijs/koishi"⟩, "refs/tags/v1.0.0"⟩ =
      some "[GitLab] koishijs/koishi published tag v1.0.0" := by
  refine ⟨rfl, rfl, ?_, by decide⟩
  intro hcontra
  have hd := congrArg String.data hcontra
  rw [String.data_append, String.data_append, String.data_append] at hd
  have hne : ("[GitLab] " : String).data ≠ [] := by decide
  simp only [List.append_assoc, List.append_eq_nil] at hd
  exact hne hd.1

/-- C10: a routed event whose formatter result is absent or the empty string
is never sent: the router performs zero delivery calls and raises no error. -/
theorem C10_empty_message_not_sent {α : Type} (outcome : Nat → String → Bool)
    (options : List (String × List Nat)) (proj : α → Project)
    (handler : α → Option String) (event : EventData α)
    (h : handler event.payload = none ∨ handler event.payload = some "") :
    wrapHandler options proj handler event = [] ∧
    wrapHandlerRun outcome options proj handler event = Except.ok [] := by
  cases hlk : lookupKV options (proj event.payload).path_with_namespace with
  | none => exact ⟨by simp [wrapHandler, hlk], by simp [wrapHandlerRun, hlk]⟩
  | some groups =>
    rcases h with h | h
    · exact ⟨by simp [wrapHandler, hlk, h], by simp [wrapHandlerRun, hlk, h]⟩
    · exact ⟨by simp [wrapHandler, hlk, h], by simp [wrapHandlerRun, hlk, h]⟩

/-- C10 witness: a handler returning the empty string for a routed project
with a configured group yields zero sends. -/
theorem C10_witness :
    wrapHandler [("g/p", [1])] TagPushEvent.project (fun _ => some "")
        ⟨⟨⟨"g/p"⟩, "r"⟩⟩ = [] ∧
    wrapHandlerRun (fun _ _ => true) [("g/p", [1])] TagPushEvent.project
        (fun _ => some "") ⟨⟨⟨"g/p"⟩, "r"⟩⟩ = Except.ok [] :=
  C10_empty_message_not_sent (fun _ _ => true) [("g/p", [1])]
    TagPushEvent.project (fun _ => some "") ⟨⟨⟨"g/p"⟩, "r"⟩⟩ (Or.inr rfl)

/-! ## Decimal digits of a `Nat` contain no newline (for the `#iid` headers) -/

theorem digitChar_ne_nl (d : Nat) : Nat.digitChar d ≠ '\n' := by
  by_cases h16 : d < 16
  · exact (by decide : ∀ x, x < 16 → Nat.digitChar x ≠ '\n') d h16
  · have hne : ∀ k : Nat, k < 16 → ¬ d = k := fun k hk he => h16 (he ▸ hk)
    unfold Nat.digitChar
    rw [if_neg (hne 0 (by decide)), if_neg (hne 1 (by decide)),
      if_neg (hne 2 (by decide)), if_neg (hne 3 (by decide)),
      if_neg (hne 4 (by decide)), if_neg (hne 5 (by decide)),
      if_neg (hne 6 (by decide)), if_neg (hne 7 (by decide)),
      if_neg (hne 8 (by decide)), if_neg (hne 9 (by decide)),
      if_neg (hne 10 (by decide)), if_neg (hne 11 (by decide)),
      if_neg (hne 12 (by decide)), if_neg (hne 13 (by decide)),
      if_neg (hne 14 (by decide)), if_neg (hne 15 (by decide))]
    decide

theorem toDigitsCore_mem (b : Nat) :
    ∀ (fuel n : Nat) (acc : List Char) (c : Char),
      c ∈ Nat.toDigitsCore b fuel n acc → c ∈ acc ∨ ∃ d, c = Nat.digitChar d := by
  intro fuel
  induction fuel with
  | zero =>
    intro n acc c h
    exact Or.inl (by simpa [Nat.toDigitsCore] using h)
  | succ f ih =>
    intro n acc c h
    simp only [Nat.toDigitsCore] at h
    split at h
    · rcases List.mem_cons.mp h with rfl | h
      · exact Or.inr ⟨n % b, rfl⟩
      · exact Or.inl h
    · rcases ih _ _ _ h with h | h
      · rcases List.mem_cons.mp h with rfl | h
        · exact Or.inr ⟨n % b, rfl⟩
        · exact Or.inl h
      · exact Or.inr h

theorem nl_not_mem_natToString (n : Nat) : '\n' ∉ (toString n).data := by
  show '\n' ∉ Nat.toDigitsCore 10 (n + 1) n []
  intro h
  rcases toDigitsCore_mem 10 (n + 1) n [] '\n' h with h' | ⟨d, hd⟩
  · simp at h'
  · exact digitChar_ne_nl d hd.symm

/-- C5 amended: for a non-suppressed Push event, the message is the newline
join of the three header lines and one collapsed message per commit; when the
project path, ref and user name are newline-free and each commit's collapsed
message is newline-free (single-line), splitting the message on newline gives
exactly those header lines followed by the collapsed commit messages —
`3 + n` lines.  (Without the single-line proviso a commit message containing
a lone embedded newline, which no blank-run collapse removes, contributes
extra lines — see the counterexample.) -/
theorem C5_push_line_structure_amended (p : PushEvent)
    (h0 : matchesZeroRun p.after = false)
    (hp : '\n' ∉ p.project.path_with_namespace.data)
    (hr : '\n' ∉ p.ref.data)
    (hu : '\n' ∉ p.user_name.data)
    (hc : ∀ c ∈ p.commits, '\n' ∉ (collapse c.message).data) :
    pushHandler p = some (nlJoin (pushLines p)) ∧
    splitNL (nlJoin (pushLines p)).data = (pushLines p).map String.data ∧
    (pushLines p).length = 3 + p.commits.length := by
  refine ⟨by simp [pushHandler, h0], ?_, ?_⟩
  · rw [nlJoin_data]
    apply splitNL_joinc
    · simp [pushLines]
    · intro q hq
      have l1 : '\n' ∉ ("[GitLab] Push (" : String).data := by decide
      have l2 : '\n' ∉ (")" : String).data := by decide
      have l3 : '\n' ∉ ("Ref: " : String).data := by decide
      have l4 : '\n' ∉ ("User: " : String).data := by decide
      simp only [pushLines, List.map_append, List.map_cons, List.map_nil,
        List.mem_append, List.mem_cons, List.not_mem_nil, or_false,
        List.map_map, List.mem_map, Function.comp] at hq
      rcases hq with (rfl | rfl | rfl) | ⟨c, hcm, rfl⟩
      · simp [String.data_append, List.mem_append, l1, hp, l2]
      · simp [String.data_append, List.mem_append, l3, hr]
      · simp [String.data_append, List.mem_append, l4, hu]
      · exact hc c hcm
  · simp [pushLines]
    omega

/-- C5 counterexample: a Push event with one commit whose message contains a
lone embedded newline (`"x\ny"`, not a blank run, so collapsing keeps it)
splits into 5 lines, not the claimed 3 + 1 = 4. -/
theorem C5_counterexample :
    pushHandler { user_name := "u", ref := "r", after := "1", project := ⟨"g/p"⟩,
                  commits := [⟨"x\ny"⟩] } =
      some "[GitLab] Push (g/p)\nRef: r\nUser: u\nx\ny" ∧
    (splitNL "[GitLab] Push (g/p)\nRef: r\nUser: u\nx\ny".data).length = 5 ∧
    3 + ({ user_name := "u", ref := "r", after := "1", project := ⟨"g/p"⟩,
           commits := [⟨"x\ny"⟩] } : PushEvent).commits.length ≠ 5 := by
  have hcol : collapse "x\ny" = "x\ny" := collapse_eq_self_of_no_run (by decide)
  refine ⟨?_, by decide, by decide⟩
  simp [pushHandler, pushLines, hcol, matchesZeroRun, nlJoin]

/-- C5 witness: a push with two single-line commits yields exactly
3 + 2 = 5 lines. -/
theorem C5_witness :
    pushHandler { user_name := "u", ref := "refs/heads/main", after := "a1",
                  project := ⟨"g/p"⟩, commits := [⟨"fix bug"⟩, ⟨"add docs"⟩] } =
      some (nlJoin (pushLines { user_name := "u", ref := "refs/heads/main",
                                after := "a1", project := ⟨"g/p"⟩,
                                commits := [⟨"fix bug"⟩, ⟨"add docs"⟩] })) ∧
    splitNL (nlJoin (pushLines { user_name := "u", ref := "refs/heads/main",
                                 after := "a1", project := ⟨"g/p"⟩,
                                 commits := [⟨"fix bug"⟩, ⟨"add docs"⟩] })).data =
      (pushLines { user_name := "u", ref := "refs/heads/main", after := "a1",
                   project := ⟨"g/p"⟩,
                   commits := [⟨"fix bug"⟩, ⟨"add docs"⟩] }).map String.data ∧
    (pushLines { user_name := "u", ref := "refs/heads/main", after := "a1",
                 project := ⟨"g/p"⟩,
                 commits := [⟨"fix bug"⟩, ⟨"add docs"⟩] }).length =
      3 + ({ user_name := "u", ref := "refs/heads/main", after := "a1",
             project := ⟨"g/p"⟩,
             commits := [⟨"fix bug"⟩, ⟨"add docs"⟩] } : PushEvent).commits.length :=
  C5_push_line_structure_amended
    { user_name := "u", ref := "refs/heads/main", after := "a1",
      project := ⟨"g/p"⟩, commits := [⟨"fix bug"⟩, ⟨"add docs"⟩] }
    (by decide) (by decide) (by decide) (by decide)
    (by
      intro c hcm
      simp only [List.mem_cons, List.not_mem_nil, or_false] at hcm
      rcases hcm with rfl | rfl <;>
        (rw [collapse_eq_self_of_no_run (by decide)]; decide))

/-- C7 amended: an Issue event with action other than `open` produces no
message; action `open` produces the newline join of 5 parts (header with
title, author, URL, and the collapsed description) — exactly 5 lines when
the interpolated fields and the collapsed description are newline-free.
(A multi-line description keeps its lone newlines, giving more than 5 lines
— see the counterexample.) -/
theorem C7_issue_open_only_amended (p : IssueEvent) :
    (p.object_attributes.action ≠ "open" → issueHandler p = none) ∧
    (p.object_attributes.action = "open" →
      issueHandler p = some (nlJoin (issueLines p)) ∧
      (issueLines p).length = 5 ∧
      ('\n' ∉ p.project.path_with_namespace.data →
       '\n' ∉ p.object_attributes.title.data →
       '\n' ∉ p.user.name.data →
       '\n' ∉ p.object_attributes.url.data →
       '\n' ∉ (collapse p.object_attributes.description).data →
       splitNL (nlJoin (issueLines p)).data = (issueLines p).map String.data)) := by
  constructor
  · intro h
    simp [issueHandler, h]
  · intro h
    refine ⟨by simp [issueHandler, h], rfl, ?_⟩
    intro h1 h2 h3 h4 h5
    rw [nlJoin_data]
    apply splitNL_joinc
    · simp [issueLines]
    · intro q hq
      have l1 : '\n' ∉ ("[GitLab] Issue Opened (" : String).data := by decide
      have l2 : '\n' ∉ ("#" : String).data := by decide
      have l3 : '\n' ∉ (")" : String).data := by decide
      have l4 : '\n' ∉ ("Title: " : String).data := by decide
      have l5 : '\n' ∉ ("User: " : String).data := by decide
      have l6 : '\n' ∉ ("URL: " : String).data := by decide
      have l7 := nl_not_mem_natToString p.object_attributes.iid
      simp only [issueLines, List.map_cons, List.map_nil, List.mem_cons,
        List.not_mem_nil, or_false] at hq
      rcases hq with rfl | rfl | rfl | rfl | rfl
      · simp [String.data_append, List.mem_append, l1, h1, l2, l7, l3]
      · simp [String.data_append, List.mem_append, l4, h2]
      · simp [String.data_append, List.mem_append, l5, h3]
      · simp [String.data_append, List.mem_append, l6, h4]
      · exact h5

/-- C7 counterexample: an `open` Issue event whose description contains a
lone embedded newline yields a 6-line message, not 5. -/
theorem C7_counterexample :
    issueHandler { user := ⟨"u"⟩, project := ⟨"g/p"⟩,
                   object_attributes := ⟨"open", 1, "t", "u1", "x\ny"⟩ } =
      some "[GitLab] Issue Opened (g/p#1)\nTitle: t\nUser: u\nURL: u1\nx\ny" ∧
    (splitNL
      "[GitLab] Issue Opened (g/p#1)\nTitle: t\nUser: u\nURL: u1\nx\ny".data).length
      ≠ 5 := by
  have hcol : collapse "x\ny" = "x\ny" := collapse_eq_self_of_no_run (by decide)
  refine ⟨?_, by decide⟩
  simp [issueHandler, issueLines, hcol, nlJoin]
  decide

/-- C7 witness: a `close` action yields no message; an `open` action with a
single-line description yields the 5-part message with the stated line
structure. -/
theorem C7_witness :
    issueHandler { user := ⟨"alice"⟩, project := ⟨"g/p"⟩,
                   object_attributes := ⟨"close", 2, "t", "u1", "d"⟩ } = none ∧
    issueHandler { user := ⟨"alice"⟩, project := ⟨"g/p"⟩,
                   object_attributes := ⟨"open", 2, "t", "u1", "d"⟩ } =
      some (nlJoin (issueLines { user := ⟨"alice"⟩, project := ⟨"g/p"⟩,
                                 object_attributes := ⟨"open", 2, "t", "u1", "d"⟩ })) ∧
    splitNL (nlJoin (issueLines { user := ⟨"alice"⟩, project := ⟨"g/p"⟩,
                                  object_attributes :=
                                    ⟨"open", 2, "t", "u1", "d"⟩ })).data =
      (issueLines { user := ⟨"alice"⟩, project := ⟨"g/p"⟩,
                    object_attributes := ⟨"open", 2, "t", "u1", "d"⟩ }).map
        String.data := by
  refine ⟨(C7_issue_open_only_amended _).1 (by decide), ?_, ?_⟩
  · exact ((C7_issue_open_only_amended _).2 rfl).1
  · exact ((C7_issue_open_only_amended _).2 rfl).2.2 (by decide) (by decide)
      (by decide) (by decide)
      (by rw [collapse_eq_self_of_no_run (by decide)]; decide)

/-- C8: every formatter that includes free text includes it as
`collapse text` (push commit messages, issue description, note body in all
three noteable branches, merge-request title), and `collapse` — the
transcription of `replace(/\n\s*\n/g, '\n')` — collapses every blank-line
run (two newlines separated only by whitespace) into a single newline: the
result has no blank-line run left, text without blank-line runs is returned
unchanged, and newlines are never removed entirely.  `hasBlankRunB` agrees
with the declarative `HasBlankRun`. -/
theorem C8_formatters_collapse_blank_runs :
    (∀ s : String, hasBlankRunB (collapse s).data = false) ∧
    (∀ s : String, hasBlankRunB s.data = false → collapse s = s) ∧
    (∀ s : String, '\n' ∈ (collapse s).data ↔ '\n' ∈ s.data) ∧
    (∀ l : List Char, hasBlankRunB l = true ↔ HasBlankRun l) ∧
    (∀ p : PushEvent, pushLines p =
      ["[GitLab] Push (" ++ p.project.path_with_namespace ++ ")",
       "Ref: " ++ p.ref, "User: " ++ p.user_name] ++
      p.commits.map (fun c => collapse c.message)) ∧
    (∀ p : IssueEvent, issueLines p =
      ["[GitLab] Issue Opened (" ++ p.project.path_with_namespace ++ "#"
         ++ toString p.object_attributes.iid ++ ")",
       "Title: " ++ p.object_attributes.title,
       "User: " ++ p.user.name,
       "URL: " ++ p.object_attributes.url,
       collapse p.object_attributes.description]) ∧
    (∀ p : NoteEvent, p.object_attributes.noteable_type = "Commit" →
      noteHandler p = some (nlJoin
        ["[GitLab] Commit Comment (" ++ p.project.path_with_namespace ++ ")",
         "User: " ++ p.user.name,
         "URL: " ++ p.object_attributes.url,
         collapse p.object_attributes.note])) ∧
    (∀ p : NoteEvent, p.object_attributes.noteable_type = "MergeRequest" →
      noteHandler p = some (nlJoin
        ["[GitLab] Merge Request Comment (" ++ p.project.path_with_namespace
           ++ "#" ++ toString p.merge_request.iid ++ ")",
         "User: " ++ p.user.name,
         "URL: " ++ p.object_attributes.url,
         collapse p.object_attributes.note])) ∧
    (∀ p : NoteEvent, p.object_attributes.noteable_type = "Issue" →
      noteHandler p = some (nlJoin
        ["[GitLab] Issue Comment (" ++ p.project.path_with_namespace ++ "#"
           ++ toString p.issue.iid ++ ")",
         "User: " ++ p.user.name,
         "URL: " ++ p.object_attributes.url,
         collapse p.object_attributes.note])) ∧
    (∀ p : MergeRequestEvent, mergeRequestLines p =
      ["[GitLab] Pull Request Opened (" ++ p.project.path_with_namespace ++ "#"
         ++ toString p.object_attributes.iid ++ ")",
       p.object_attributes.target.path_with_namespace ++ "/"
         ++ p.object_attributes.target_branch ++ " <- "
         ++ p.object_attributes.source.path_with_namespace ++ "/"
         ++ p.object_attributes.source_branch,
       "User: " ++ p.user.name,
       "URL: " ++ p.object_attributes.url,
       collapse p.object_attributes.title]) := by
  refine ⟨fun s => hasBlankRunB_collapseL s.data,
    fun s h => collapse_eq_self_of_no_run h,
    fun s => nl_mem_collapseL s.data,
    hasBlankRunB_iff,
    fun p => rfl, fun p => rfl, ?_, ?_, ?_, fun p => rfl⟩
  · intro p h
    simp [noteHandler, h]
  · intro p h
    simp [noteHandler, h]
  · intro p h
    simp [noteHandler, h]

/-- C8 witness: a lone newline survives collapsing unchanged, and collapsing
always leaves no blank-line run behind. -/
theorem C8_witness :
    collapse "a\nb" = "a\nb" ∧
    hasBlankRunB (collapse "x\n \n\ny").data = false :=
  ⟨C8_formatters_collapse_blank_runs.2.1 "a\nb" (by decide),
   C8_formatters_collapse_blank_runs.1 "x\n \n\ny"⟩

/-- C9 amended: registration is idempotent and keyed by the CONCATENATED
string `config.path + config.secret + config.port`: re-applying a
configuration changes nothing (its receiver and its port's listener are
reused); a registered receiver is kept by all later applies; no port ever
gets a second HTTP listener; and configurations with distinct key strings
never share a receiver instance.  (Distinct (path, secret, port) triples
whose concatenations coincide DO share one receiver — see the
counterexample, which refutes the claim's per-triple keying.) -/
theorem C9_registration_keyed_amended :
    (∀ (c : WebhookConfig) (s : Registry),
      applyStep c (applyStep c s) = applyStep c s) ∧
    (∀ (c : WebhookConfig) (s : Registry),
      (∃ v, lookupKV (applyStep c s).webhooks (registryKey c) = some v) ∧
      ∃ v, lookupKV (applyStep c s).servers c.port = some v) ∧
    (∀ (cs : List WebhookConfig) (k : String) (v : Nat) (s : Registry),
      lookupKV s.webhooks k = some v →
      lookupKV (applyFold s cs).webhooks k = some v) ∧
    (∀ cs : List WebhookConfig, ((applyRun cs).servers.map Prod.fst).Nodup) ∧
    (∀ (cs : List WebhookConfig) (c₁ c₂ : WebhookConfig) (v₁ v₂ : Nat),
      registryKey c₁ ≠ registryKey c₂ →
      lookupKV (applyRun cs).webhooks (registryKey c₁) = some v₁ →
      lookupKV (applyRun cs).webhooks (registryKey c₂) = some v₂ →
      v₁ ≠ v₂) := by
  refine ⟨applyStep_idem,
    fun c s => ⟨applyStep_webhook_some c s, applyStep_server_some c s⟩,
    fun cs k v s h => lookupKV_applyFold_webhooks cs h, ?_, ?_⟩
  · intro cs
    exact (applyFold_inv cs emptyRegistry (by simp [emptyRegistry])
      (by simp [emptyRegistry]) (by simp [emptyRegistry])).1
  · intro cs c₁ c₂ v₁ v₂ hk h₁ h₂
    have hinv := (applyFold_inv cs emptyRegistry (by simp [emptyRegistry])
      (by simp [emptyRegistry]) (by simp [emptyRegistry])).2.1
    exact lookupKV_distinct_values hinv hk h₁ h₂

/-- C9 counterexample: the DISTINCT triples (path `a`, secret `b`, port 12)
and (path `ab`, secret ``, port 12) concatenate to the same key `ab12`, so
the second `apply` call reuses the first call's receiver: after both calls
the registry holds exactly one receiver instance, shared by both triples —
refuting "distinct triples do not share a receiver instance". -/
theorem C9_counterexample :
    (⟨12, "b", "a"⟩ : WebhookConfig) ≠ ⟨12, "", "ab"⟩ ∧
    registryKey ⟨12, "b", "a"⟩ = registryKey ⟨12, "", "ab"⟩ ∧
    applyRun [⟨12, "b", "a"⟩, ⟨12, "", "ab"⟩] =
      { webhooks := [("ab12", 0)], servers := [(12, 0)], nextId := 1 } ∧
    lookupKV (applyRun [⟨12, "b", "a"⟩, ⟨12, "", "ab"⟩]).webhooks
        (registryKey ⟨12, "", "ab"⟩) =
      lookupKV (applyRun [⟨12, "b", "a"⟩, ⟨12, "", "ab"⟩]).webhooks
        (registryKey ⟨12, "b", "a"⟩) :=
  ⟨by decide, by decide, by decide, by decide⟩

/-- C9 witness: re-applying one configuration is a no-op; two configurations
with distinct keys on distinct ports get one listener per port and distinct
receiver instances (ids 0 and 1). -/
theorem C9_witness :
    applyStep ⟨7, "s", "/"⟩ (applyStep ⟨7, "s", "/"⟩ emptyRegistry) =
      applyStep ⟨7, "s", "/"⟩ emptyRegistry ∧
    ((applyRun [⟨1, "", "a"⟩, ⟨2, "", "b"⟩]).servers.map Prod.fst).Nodup ∧
    (0 : Nat) ≠ 1 :=
  ⟨C9_registration_keyed_amended.1 ⟨7, "s", "/"⟩ emptyRegistry,
   C9_registration_keyed_amended.2.2.2.1 [⟨1, "", "a"⟩, ⟨2, "", "b"⟩],
   C9_registration_keyed_amended.2.2.2.2 [⟨1, "", "a"⟩, ⟨2, "", "b"⟩]
     ⟨1, "", "a"⟩ ⟨2, "", "b"⟩ 0 1 (by decide) (by decide) (by decide)⟩

end GitlabWebhook
